import Mathlib

/-!
Verification development for the ZKMind repository.

The definitions below are shallow embeddings of the TypeScript sources:
* `frontend/src/lib/mastermind.ts` — the Mastermind feedback engine;
* the demo game page (`handleGuess`) — local win/lose bookkeeping;
* the on-chain game page (`computeCommitment`, the proof-hash fallback of
  `handleSubmitFeedback`) — commitment and degraded proof-hash paths;
* `frontend/src/lib/contracts.ts` — transaction building with retry and the
  manual-footprint bypass, and the read-only queries `getGame` /
  `getGameDirect`.

JavaScript numbers that hold symbol values are modelled as `Int` (the game
code compares them only with `===`); byte values are `Nat` taken mod 256
where the source writes into a `Uint8Array`; imperative counting loops are
rendered as `List.filter`/`length` over `List.range`, which performs the
same bounded iteration.
-/

namespace ZKMind

/-! ## Constants from `mastermind.ts` -/

def CODE_LENGTH : Nat := 4

def NUM_COLORS : Nat := 6

def MAX_GUESSES : Nat := 12

/-- The 6-symbol alphabet 0..5 (the loop bounds of `computeFeedback`). -/
def alphabetL : List Int := [0, 1, 2, 3, 4, 5]

/-- `Feedback` record: red pegs (`correctPosition`) and white pegs
(`correctColor`). -/
structure Feedback where
  correctPosition : Nat
  correctColor : Nat
  deriving Repr, DecidableEq

/-! ## `computeFeedback` (mastermind.ts lines 20–47)

Step 1 of the source sets `isExact[i] := (secret[i] === guess[i])` and counts
the `true` entries; step 2 sums, over each color 0..5, the minimum of the
occurrence counts of that color at non-exact positions of secret and guess. -/

/-- `isExact[i]` as computed by step 1 of the source. -/
def isExactAt (secret guess : List Int) (i : Nat) : Bool :=
  decide (secret.getD i 0 = guess.getD i 0)

/-- `exactMatches` counter of step 1. -/
def exactMatches (secret guess : List Int) : Nat :=
  ((List.range CODE_LENGTH).filter (fun i => isExactAt secret guess i)).length

/-- `countInSecret` for one color in step 2: occurrences of `color` among
non-exact positions of the secret. -/
def countInSecret (secret guess : List Int) (color : Int) : Nat :=
  ((List.range CODE_LENGTH).filter
    (fun i => !isExactAt secret guess i && decide (secret.getD i 0 = color))).length

/-- `countInGuess` for one color in step 2. -/
def countInGuess (secret guess : List Int) (color : Int) : Nat :=
  ((List.range CODE_LENGTH).filter
    (fun i => !isExactAt secret guess i && decide (guess.getD i 0 = color))).length

/-- Per-color contribution `Math.min(countInSecret, countInGuess)`. -/
def minCount (secret guess : List Int) (color : Int) : Nat :=
  min (countInSecret secret guess color) (countInGuess secret guess color)

/-- `colorMatches` accumulator: the color loop runs over `0 ≤ color < 6`. -/
def colorMatches (secret guess : List Int) : Nat :=
  ((List.range NUM_COLORS).map (fun c => minCount secret guess (c : Int))).sum

/-- `computeFeedback` from `mastermind.ts`. -/
def computeFeedback (secret guess : List Int) : Feedback :=
  { correctPosition := exactMatches secret guess
    correctColor := colorMatches secret guess }

/-! ## Spec-side feedback algorithm (for the refinement claim)

Formalised from the spec's words (§4.1): scan positions where
`secret[i] == guess[i]`, consume them and count them as exact matches; for
each symbol value of the alphabet take the minimum of its occurrence counts
among the unconsumed positions of secret and of guess, and sum. -/

/-- Spec: exact matches are the positions where the two codes agree. -/
def specExactMatches (s g : List Int) : Nat :=
  ((s.zip g).filter (fun p => decide (p.1 = p.2))).length

/-- Spec: the unconsumed positions (pairs of symbols) after step 1. -/
def specUnconsumed (s g : List Int) : List (Int × Int) :=
  (s.zip g).filter (fun p => !decide (p.1 = p.2))

/-- Spec: per symbol value, `min(countInSecret, countInGuess)` over the
unconsumed positions, summed over the alphabet. -/
def specColorMatches (s g : List Int) : Nat :=
  (alphabetL.map (fun c =>
    min (((specUnconsumed s g).map Prod.fst).count c)
        (((specUnconsumed s g).map Prod.snd).count c))).sum

/-- The spec's two-pass exact-then-color algorithm. -/
def specFeedback (s g : List Int) : Feedback :=
  { correctPosition := specExactMatches s g
    correctColor := specColorMatches s g }

/-! ### Counting lemmas -/

/-- A position-indexed count over `range 4` equals the corresponding count
over the zipped lists, for length-4 lists. -/
theorem length_filter_range_eq_zip (p : Int → Int → Bool) (s g : List Int)
    (hs : s.length = 4) (hg : g.length = 4) :
    ((List.range 4).filter (fun i => p (s.getD i 0) (g.getD i 0))).length
      = ((s.zip g).filter (fun x => p x.1 x.2)).length := by
  rcases s with _ | ⟨s0, _ | ⟨s1, _ | ⟨s2, _ | ⟨s3, _ | ⟨s4, srest⟩⟩⟩⟩⟩ <;>
    simp only [List.length_nil, List.length_cons] at hs <;> try omega
  rcases g with _ | ⟨g0, _ | ⟨g1, _ | ⟨g2, _ | ⟨g3, _ | ⟨g4, grest⟩⟩⟩⟩⟩ <;>
    simp only [List.length_nil, List.length_cons] at hg <;> try omega
  show (List.filter _ [0, 1, 2, 3]).length = _
  simp only [List.zip_cons_cons, List.zip_nil_right, List.filter,
    List.getD_cons_zero, List.getD_cons_succ]
  cases p s0 g0 <;> cases p s1 g1 <;> cases p s2 g2 <;> cases p s3 g3 <;> rfl

theorem countInSecret_eq_spec (s g : List Int) (hs : s.length = 4)
    (hg : g.length = 4) (c : Int) :
    countInSecret s g c = ((specUnconsumed s g).map Prod.fst).count c := by
  have h1 : countInSecret s g c
      = ((s.zip g).filter (fun x => !decide (x.1 = x.2) && decide (x.1 = c))).length := by
    have := length_filter_range_eq_zip
      (fun x y => !decide (x = y) && decide (x = c)) s g hs hg
    simpa [countInSecret, isExactAt, CODE_LENGTH] using this
  rw [h1, List.count, List.countP_map, specUnconsumed, List.countP_filter,
    ← List.countP_eq_length_filter]
  apply List.countP_congr
  intro x _
  simp only [Bool.and_eq_true, Bool.not_eq_true', decide_eq_true_eq,
    decide_eq_false_iff_not, Function.comp, beq_iff_eq]
  exact and_comm

theorem countInGuess_eq_spec (s g : List Int) (hs : s.length = 4)
    (hg : g.length = 4) (c : Int) :
    countInGuess s g c = ((specUnconsumed s g).map Prod.snd).count c := by
  have h1 : countInGuess s g c
      = ((s.zip g).filter (fun x => !decide (x.1 = x.2) && decide (x.2 = c))).length := by
    have := length_filter_range_eq_zip
      (fun x y => !decide (x = y) && decide (y = c)) s g hs hg
    simpa [countInGuess, isExactAt, CODE_LENGTH] using this
  rw [h1, List.count, List.countP_map, specUnconsumed, List.countP_filter,
    ← List.countP_eq_length_filter]
  apply List.countP_congr
  intro x _
  simp only [Bool.and_eq_true, Bool.not_eq_true', decide_eq_true_eq,
    decide_eq_false_iff_not, Function.comp, beq_iff_eq]
  exact and_comm

theorem computeFeedback_eq_specFeedback (s g : List Int) (hs : s.length = 4)
    (hg : g.length = 4) : computeFeedback s g = specFeedback s g := by
  have hexact : exactMatches s g = specExactMatches s g := by
    rw [exactMatches, specExactMatches, CODE_LENGTH]
    have := length_filter_range_eq_zip (fun x y => decide (x = y)) s g hs hg
    simpa [isExactAt] using this
  have hcolor : colorMatches s g = specColorMatches s g := by
    rw [colorMatches, specColorMatches]
    have hmap : (List.range NUM_COLORS).map (fun c => minCount s g (c : Int))
        = alphabetL.map (fun c => minCount s g c) := by rfl
    rw [hmap]
    apply congrArg
    apply List.map_congr_left
    intro c _
    rw [minCount, countInSecret_eq_spec s g hs hg, countInGuess_eq_spec s g hs hg]
  show Feedback.mk (exactMatches s g) (colorMatches s g) = _
  rw [hexact, hcolor]; rfl

/-! ### Bound lemmas: the feedback sum never exceeds the code length -/

theorem length_filter_add_length_filter_not {α : Type} (l : List α) (p : α → Bool) :
    (l.filter p).length + (l.filter (fun a => !p a)).length = l.length := by
  induction l with
  | nil => rfl
  | cons a l ih =>
    cases h : p a <;> simp [List.filter_cons, h, ← ih] <;> omega

theorem sum_map_ite_eq_zero (x : Int) (cs : List Int) (h : x ∉ cs) :
    (cs.map (fun c => if x = c then 1 else 0)).sum = 0 := by
  induction cs with
  | nil => rfl
  | cons c cs ih =>
    simp only [List.mem_cons, not_or] at h
    simp [List.map_cons, List.sum_cons, h.1, ih h.2]

theorem sum_map_ite_le_one (x : Int) (cs : List Int) (h : cs.Nodup) :
    (cs.map (fun c => if x = c then 1 else 0)).sum ≤ 1 := by
  induction cs with
  | nil => simp
  | cons c cs ih =>
    rcases List.nodup_cons.mp h with ⟨hc, hcs⟩
    by_cases hx : x = c
    · subst hx
      simp [sum_map_ite_eq_zero x cs hc]
    · simpa [hx] using ih hcs

/-- Summing, over a duplicate-free list of colors, the number of elements of
`l` whose value is that color never exceeds the length of `l`. -/
theorem sum_counts_le_length {β : Type} (l : List β) (f : β → Int) (cs : List Int)
    (h : cs.Nodup) :
    (cs.map (fun c => (l.filter (fun a => decide (f a = c))).length)).sum ≤ l.length := by
  induction l with
  | nil => simp
  | cons b l ih =>
    have hsplit : ∀ c : Int, ((b :: l).filter (fun a => decide (f a = c))).length
        = (if f b = c then 1 else 0) + (l.filter (fun a => decide (f a = c))).length := by
      intro c
      by_cases hb : f b = c <;> simp [List.filter_cons, hb] <;> omega
    calc (cs.map (fun c => ((b :: l).filter (fun a => decide (f a = c))).length)).sum
        = (cs.map (fun c => (if f b = c then 1 else 0)
            + (l.filter (fun a => decide (f a = c))).length)).sum := by
          exact congrArg List.sum (List.map_congr_left (fun c _ => hsplit c))
      _ = (cs.map (fun c => if f b = c then 1 else 0)).sum
            + (cs.map (fun c => (l.filter (fun a => decide (f a = c))).length)).sum :=
          List.sum_map_add
      _ ≤ 1 + l.length := Nat.add_le_add (sum_map_ite_le_one (f b) cs h) ih
      _ = (b :: l).length := by simp [Nat.add_comm]

/-- `countInSecret` as a per-color count over the non-exact positions. -/
theorem countInSecret_eq_filter_nonexact (s g : List Int) (c : Int) :
    countInSecret s g c
      = (((List.range CODE_LENGTH).filter (fun i => !isExactAt s g i)).filter
          (fun i => decide (s.getD i 0 = c))).length := by
  rw [countInSecret, ← List.countP_eq_length_filter, ← List.countP_eq_length_filter,
    List.countP_filter]
  apply List.countP_congr
  intro i _
  constructor <;> intro hi <;> simpa [Bool.and_comm] using hi

theorem colorMatches_le_nonexact (s g : List Int) :
    colorMatches s g
      ≤ ((List.range CODE_LENGTH).filter (fun i => !isExactAt s g i)).length := by
  have h1 : colorMatches s g
      ≤ ((List.range NUM_COLORS).map (fun c => countInSecret s g (c : Int))).sum := by
    apply List.sum_le_sum
    intro c _
    exact min_le_left _ _
  apply le_trans h1
  have h2 : ((List.range NUM_COLORS).map (fun c => countInSecret s g (c : Int))).sum
      = (alphabetL.map (fun c =>
          (((List.range CODE_LENGTH).filter (fun i => !isExactAt s g i)).filter
            (fun i => decide (s.getD i 0 = c))).length)).sum := by
    have hmap : (List.range NUM_COLORS).map (fun c => countInSecret s g (c : Int))
        = alphabetL.map (fun c => countInSecret s g c) := by rfl
    rw [hmap]
    exact congrArg List.sum
      (List.map_congr_left (fun c _ => countInSecret_eq_filter_nonexact s g c))
  rw [h2]
  exact sum_counts_le_length _ (fun i => s.getD i 0) alphabetL (by decide)

/-- The exact-match count plus the color-match count is at most 4. -/
theorem feedback_sum_le_four (s g : List Int) :
    exactMatches s g + colorMatches s g ≤ 4 := by
  have h1 := colorMatches_le_nonexact s g
  have h2 := length_filter_add_length_filter_not (List.range CODE_LENGTH)
    (fun i => isExactAt s g i)
  have h3 : (List.range CODE_LENGTH).length = 4 := by rfl
  rw [exactMatches]
  omega

theorem exactMatches_le_four (s g : List Int) : exactMatches s g ≤ 4 := by
  have h2 := length_filter_add_length_filter_not (List.range CODE_LENGTH)
    (fun i => isExactAt s g i)
  have h3 : (List.range CODE_LENGTH).length = 4 := by rfl
  rw [exactMatches]
  omega

/-! ### Color-relabeling invariance machinery -/

theorem getD_map_of_lt (p : Int → Int) (l : List Int) (i : Nat) (h : i < l.length) :
    (l.map p).getD i 0 = p (l.getD i 0) := by
  rw [List.getD_eq_getElem _ _ (by simpa using h), List.getD_eq_getElem l _ h]
  simp

theorem getD_mem_of_lt {α : Type} (l : List α) (d : α) (i : Nat) (h : i < l.length) :
    l.getD i d ∈ l := by
  rw [List.getD_eq_getElem l _ h]
  exact List.getElem_mem h

/-- Relabeling both codes with a permutation of the alphabet leaves
`computeFeedback` unchanged. -/
theorem computeFeedback_relabel (p : Int → Int) (s g : List Int)
    (hperm : (alphabetL.map p).Perm alphabetL)
    (hs : s.length = 4) (hg : g.length = 4)
    (hsA : ∀ x ∈ s, x ∈ alphabetL) (hgA : ∀ x ∈ g, x ∈ alphabetL) :
    computeFeedback (s.map p) (g.map p) = computeFeedback s g := by
  have hnodupA : alphabetL.Nodup := by decide
  have hnodup : (alphabetL.map p).Nodup := hperm.nodup_iff.mpr hnodupA
  have hinj : ∀ x ∈ alphabetL, ∀ y ∈ alphabetL, p x = p y → x = y := by
    intro x hx y hy hf
    exact List.inj_on_of_nodup_map hnodup hx hy hf
  -- the exact-match pattern is unchanged by the relabeling
  have hex : ∀ i, i ∈ List.range CODE_LENGTH →
      isExactAt (s.map p) (g.map p) i = isExactAt s g i := by
    intro i hi
    have hi4 : i < 4 := by simpa [CODE_LENGTH] using List.mem_range.mp hi
    rw [isExactAt, isExactAt, getD_map_of_lt p s i (by omega),
      getD_map_of_lt p g i (by omega)]
    have hsm : s.getD i 0 ∈ alphabetL := hsA _ (getD_mem_of_lt s 0 i (by omega))
    have hgm : g.getD i 0 ∈ alphabetL := hgA _ (getD_mem_of_lt g 0 i (by omega))
    rw [decide_eq_decide]
    constructor
    · intro hc
      exact hinj _ hsm _ hgm hc
    · intro hc
      rw [hc]
  have hexact : exactMatches (s.map p) (g.map p) = exactMatches s g := by
    rw [exactMatches, exactMatches, List.filter_congr hex]
  -- per-color counts transport along the permutation
  have hcs : ∀ c ∈ alphabetL,
      countInSecret (s.map p) (g.map p) (p c) = countInSecret s g c := by
    intro c hc
    rw [countInSecret, countInSecret]
    apply congrArg List.length
    apply List.filter_congr
    intro i hi
    have hi4 : i < 4 := by simpa [CODE_LENGTH] using List.mem_range.mp hi
    rw [hex i hi, getD_map_of_lt p s i (by omega)]
    have hsm : s.getD i 0 ∈ alphabetL := hsA _ (getD_mem_of_lt s 0 i (by omega))
    have hdec : decide (p (s.getD i 0) = p c) = decide (s.getD i 0 = c) := by
      rw [decide_eq_decide]
      constructor
      · intro hcc
        exact hinj _ hsm _ hc hcc
      · intro hcc
        rw [hcc]
    rw [hdec]
  have hcg : ∀ c ∈ alphabetL,
      countInGuess (s.map p) (g.map p) (p c) = countInGuess s g c := by
    intro c hc
    rw [countInGuess, countInGuess]
    apply congrArg List.length
    apply List.filter_congr
    intro i hi
    have hi4 : i < 4 := by simpa [CODE_LENGTH] using List.mem_range.mp hi
    rw [hex i hi, getD_map_of_lt p g i (by omega)]
    have hgm : g.getD i 0 ∈ alphabetL := hgA _ (getD_mem_of_lt g 0 i (by omega))
    have hdec : decide (p (g.getD i 0) = p c) = decide (g.getD i 0 = c) := by
      rw [decide_eq_decide]
      constructor
      · intro hcc
        exact hinj _ hgm _ hc hcc
      · intro hcc
        rw [hcc]
    rw [hdec]
  have hcolor : colorMatches (s.map p) (g.map p) = colorMatches s g := by
    have hmapL : ∀ u v : List Int, colorMatches u v
        = (alphabetL.map (fun c => minCount u v c)).sum := by
      intro u v
      rfl
    rw [hmapL, hmapL]
    have hstep1 : (alphabetL.map (fun c => minCount (s.map p) (g.map p) c)).sum
        = ((alphabetL.map p).map (fun c => minCount (s.map p) (g.map p) c)).sum :=
      ((hperm.map (fun c => minCount (s.map p) (g.map p) c)).sum_eq).symm
    rw [hstep1, List.map_map]
    apply congrArg List.sum
    apply List.map_congr_left
    intro c hc
    show minCount (s.map p) (g.map p) (p c) = minCount s g c
    rw [minCount, minCount, hcs c hc, hcg c hc]
  show Feedback.mk (exactMatches (s.map p) (g.map p)) (colorMatches (s.map p) (g.map p))
      = Feedback.mk (exactMatches s g) (colorMatches s g)
  rw [hexact, hcolor]

/-! ## SHA-256 (the `sha256` digest from `@noble/hashes` used by the on-chain
game page), over byte lists, with 32-bit words as `Nat` reduced mod `2^32` -/

def w32 (x : Nat) : Nat := x % 4294967296

def rotr (n x : Nat) : Nat := w32 (x / 2 ^ n + x % 2 ^ n * 2 ^ (32 - n))

def shr (n x : Nat) : Nat := x / 2 ^ n

def bigSigma0 (x : Nat) : Nat := rotr 2 x ^^^ rotr 13 x ^^^ rotr 22 x

def bigSigma1 (x : Nat) : Nat := rotr 6 x ^^^ rotr 11 x ^^^ rotr 25 x

def smallSigma0 (x : Nat) : Nat := rotr 7 x ^^^ rotr 18 x ^^^ shr 3 x

def smallSigma1 (x : Nat) : Nat := rotr 17 x ^^^ rotr 19 x ^^^ shr 10 x

def chFn (x y z : Nat) : Nat := (x &&& y) ^^^ ((x ^^^ 4294967295) &&& z)

def majFn (x y z : Nat) : Nat := (x &&& y) ^^^ (x &&& z) ^^^ (y &&& z)

/-- The 64 SHA-256 round constants. -/
def K256 : List Nat :=
  [1116352408, 1899447441, 3049323471, 3921009573, 961987163,
   1508970993, 2453635748, 2870763221, 3624381080, 310598401,
   607225278, 1426881987, 1925078388, 2162078206, 2614888103,
   3248222580, 3835390401, 4022224774, 264347078, 604807628,
   770255983, 1249150122, 1555081692, 1996064986, 2554220882,
   2821834349, 2952996808, 3210313671, 3336571891, 3584528711,
   113926993, 338241895, 666307205, 773529912, 1294757372,
   1396182291, 1695183700, 1986661051, 2177026350, 2456956037,
   2730485921, 2820302411, 3259730800, 3345764771, 3516065817,
   3600352804, 4094571909, 275423344, 430227734, 506948616,
   659060556, 883997877, 958139571, 1322822218, 1537002063,
   1747873779, 1955562222, 2024104815, 2227730452, 2361852424,
   2428436474, 2756734187, 3204031479, 3329325298]

/-- Working registers of the compression function. -/
structure Regs where
  a : Nat
  b : Nat
  c : Nat
  d : Nat
  e : Nat
  f : Nat
  g : Nat
  h : Nat

def initRegs : Regs :=
  ⟨1779033703, 3144134277, 1013904242, 2773480762,
   1359893119, 2600822924, 528734635, 1541459225⟩

/-- Big-endian 8-byte encoding of the bit length, as in SHA-256 padding. -/
def lenBytes (bitLen : Nat) : List Nat :=
  [bitLen / 2 ^ 56 % 256, bitLen / 2 ^ 48 % 256, bitLen / 2 ^ 40 % 256,
   bitLen / 2 ^ 32 % 256, bitLen / 2 ^ 24 % 256, bitLen / 2 ^ 16 % 256,
   bitLen / 2 ^ 8 % 256, bitLen % 256]

/-- SHA-256 padding: append `0x80`, zero bytes up to 56 mod 64, then the
64-bit big-endian message bit length. -/
def padMessage (msg : List Nat) : List Nat :=
  msg ++ [128] ++ List.replicate ((119 - msg.length % 64) % 64) 0
      ++ lenBytes (msg.length * 8)

/-- Split a byte list into 64-byte chunks. -/
def toChunks (l : List Nat) : List (List Nat) :=
  if h : l = [] then [] else
    have : l.length - 64 < l.length := by
      have : 0 < l.length := List.length_pos.mpr h
      omega
    l.take 64 :: toChunks (l.drop 64)
termination_by l.length
decreasing_by simpa using this

/-- The 16 initial 32-bit message words of one chunk (big-endian). -/
def wordsOfChunk (chunk : List Nat) : List Nat :=
  (List.range 16).map (fun j =>
    chunk.getD (4 * j) 0 * 2 ^ 24 + chunk.getD (4 * j + 1) 0 * 2 ^ 16 +
    chunk.getD (4 * j + 2) 0 * 2 ^ 8 + chunk.getD (4 * j + 3) 0)

/-- One step of the message-schedule extension. -/
def extendStep (ws : List Nat) : List Nat :=
  let i := ws.length
  ws ++ [w32 (ws.getD (i - 16) 0 + smallSigma0 (ws.getD (i - 15) 0)
      + ws.getD (i - 7) 0 + smallSigma1 (ws.getD (i - 2) 0))]

def extendWords : Nat → List Nat → List Nat
  | 0, ws => ws
  | n + 1, ws => extendWords n (extendStep ws)

/-- One compression round. -/
def roundStep (r : Regs) (kw : Nat × Nat) : Regs :=
  let t1 := w32 (r.h + bigSigma1 r.e + chFn r.e r.f r.g + kw.1 + kw.2)
  let t2 := w32 (bigSigma0 r.a + majFn r.a r.b r.c)
  ⟨w32 (t1 + t2), r.a, r.b, r.c, w32 (r.d + t1), r.e, r.f, r.g⟩

/-- Process one 64-byte chunk. -/
def processChunk (st : Regs) (chunk : List Nat) : Regs :=
  let ws := extendWords 48 (wordsOfChunk chunk)
  let r := (K256.zip ws).foldl roundStep st
  ⟨w32 (st.a + r.a), w32 (st.b + r.b), w32 (st.c + r.c), w32 (st.d + r.d),
   w32 (st.e + r.e), w32 (st.f + r.f), w32 (st.g + r.g), w32 (st.h + r.h)⟩

/-- Big-endian 4-byte encoding of a 32-bit word. -/
def wordBytes (w : Nat) : List Nat :=
  [w / 2 ^ 24 % 256, w / 2 ^ 16 % 256, w / 2 ^ 8 % 256, w % 256]

def regsBytes (r : Regs) : List Nat :=
  wordBytes r.a ++ wordBytes r.b ++ wordBytes r.c ++ wordBytes r.d ++
  wordBytes r.e ++ wordBytes r.f ++ wordBytes r.g ++ wordBytes r.h

/-- SHA-256 digest of a byte list, as 32 bytes. -/
def sha256 (msg : List Nat) : List Nat :=
  regsBytes ((toChunks (padMessage msg)).foldl processChunk initRegs)

/-- Lower-case hex alphabet used by `Buffer.toString('hex')`. -/
def hexChars : List Char := "0123456789abcdef".toList

def hexOfByte (b : Nat) : List Char :=
  [hexChars.getD (b / 16 % 16) '0', hexChars.getD (b % 16) '0']

/-- `Buffer.from(bytes).toString('hex')`. -/
def hexEncode (bytes : List Nat) : String :=
  String.mk (List.flatten (bytes.map hexOfByte))

theorem regsBytes_length (r : Regs) : (regsBytes r).length = 32 := by
  rfl

theorem sha256_length (msg : List Nat) : (sha256 msg).length = 32 :=
  regsBytes_length _

theorem hexEncode_length (bytes : List Nat) :
    (hexEncode bytes).length = 2 * bytes.length := by
  show (List.flatten (bytes.map hexOfByte)).length = 2 * bytes.length
  induction bytes with
  | nil => rfl
  | cons b bs ih =>
    simp only [List.map_cons, List.flatten_cons, List.length_append, ih, List.length_cons]
    show 2 + 2 * bs.length = 2 * (bs.length + 1)
    omega

/-! ## `computeCommitment` (on-chain game page)

The source allocates a zeroed `Uint8Array(code.length * 32)` and writes
`data[i * 32 + 31] = code[i]` (big-endian field encoding, one 32-byte block
per symbol), then hashes with sha256 and hex-encodes. `Uint8Array` stores
values mod 256. -/

/-- The digest input of `computeCommitment`: 32 bytes per symbol, the symbol
value in the last byte of its block, zero padding elsewhere. -/
def commitmentPreimage (code : List Nat) : List Nat :=
  (List.range (code.length * 32)).map
    (fun j => if j % 32 = 31 then code.getD (j / 32) 0 % 256 else 0)

/-- `computeCommitment` from the on-chain game page. -/
def computeCommitment (code : List Nat) : String :=
  hexEncode (sha256 (commitmentPreimage code))

/-! ## Proof-hash selection in `handleSubmitFeedback` (on-chain game page) -/

/-- `Uint8Array` coercion of a JS integer. -/
def byteOfInt (x : Int) : Nat := (x % 256).toNat

/-- The degraded proof hash: sha256 of the disclosed secret, guess and
feedback bytes, hex-encoded (`handleSubmitFeedback`, catch branch). -/
def fallbackProofHash (secret guess : List Int) (fb : Feedback) : String :=
  hexEncode (sha256 (secret.map byteOfInt ++ guess.map byteOfInt
    ++ [fb.correctPosition % 256, fb.correctColor % 256]))

/-- Result of the `generateProof` call in `handleSubmitFeedback`. -/
inductive ProofOutcome where
  | ok : String → ProofOutcome
  | failed : String → ProofOutcome

/-- The `proofHash` value `handleSubmitFeedback` submits on-chain: the
generated proof's hash if proof generation succeeded, the sha256 fallback
if it threw. -/
def submittedProofHash (po : ProofOutcome) (secret guess : List Int)
    (fb : Feedback) : String :=
  match po with
  | .ok ph => ph
  | .failed _ => fallbackProofHash secret guess fb

/-- Modelled from the spec: the genuine proof hash is the digest of the proof
bytes (`proofHash = digest(proofBytes)`, §4.3); the `generateProof` module
(`@/lib/noir`) is not among the provided sources, and the stored value is the
hex digest string it returns. -/
def genuineProofHash (proofBytes : List Nat) : String :=
  hexEncode (sha256 proofBytes)

/-! ## Demo game page: `handleGuess` win/lose bookkeeping -/

inductive DemoPhase where
  | setup
  | playing
  | finished
  deriving Repr, DecidableEq

inductive Player where
  | codebreaker
  | codemaker
  deriving Repr, DecidableEq

structure GuessEntry where
  guess : List Int
  feedback : Feedback
  deriving Repr, DecidableEq

/-- State of the demo game component. -/
structure DemoState where
  phase : DemoPhase
  secretCode : List Int
  guessHistory : List GuessEntry
  showSecret : Bool
  winner : Option Player
  lastAnimated : Int
  deriving Repr, DecidableEq

/-- `handleGuess` of the demo page: append the new entry, then check the win
conditions in order (`correctPosition === CODE_LENGTH` first, then
`newHistory.length >= MAX_GUESSES`). -/
def handleGuess (s : DemoState) (guess : List Int) : DemoState :=
  let feedback := computeFeedback s.secretCode guess
  let newHistory := s.guessHistory ++ [⟨guess, feedback⟩]
  let s1 : DemoState := { s with guessHistory := newHistory
                                 lastAnimated := (newHistory.length : Int) - 1 }
  if feedback.correctPosition = CODE_LENGTH then
    { s1 with winner := some .codebreaker, phase := .finished, showSecret := true }
  else if MAX_GUESSES ≤ newHistory.length then
    { s1 with winner := some .codemaker, phase := .finished, showSecret := true }
  else s1

/-! ## Soroban value model and the dynamic parsing in `contracts.ts`

`ScVal` models the XDR value union the queries receive; the accessors mirror
the SDK accessors, which throw when applied to the wrong arm (modelled with
`Except`), except for `.vec()`/`.map()` whose null results the source guards
explicitly. -/

inductive ScVal where
  | u32 : Nat → ScVal
  | sym : String → ScVal
  | bytes : List Nat → ScVal
  | address : String → ScVal
  | void : ScVal
  | vec : List ScVal → ScVal
  | scmap : List (ScVal × ScVal) → ScVal

def getU32 : ScVal → Except String Nat
  | .u32 n => .ok n
  | _ => .error "not a u32"

def getSym : ScVal → Except String String
  | .sym s => .ok s
  | _ => .error "not a symbol"

def getBytes : ScVal → Except String (List Nat)
  | .bytes b => .ok b
  | _ => .error "not bytes"

/-- `Address.fromScVal` — throws unless the value is an address. -/
def getAddr : ScVal → Except String String
  | .address a => .ok a
  | _ => .error "not an address"

def getVec : ScVal → Option (List ScVal)
  | .vec vs => some vs
  | _ => none

def getMap : ScVal → Option (List (ScVal × ScVal))
  | .scmap es => some es
  | _ => none

/-- `parseVecU32`: the source returns `[]` for a missing vector, and maps
`.u32()` over the elements. -/
def parseVecU32 (val : ScVal) : Except String (List Nat) :=
  match getVec val with
  | none => .ok []
  | some vs => vs.mapM getU32

def parseVecOfVecU32 (val : ScVal) : Except String (List (List Nat)) :=
  match getVec val with
  | none => .ok []
  | some vs => vs.mapM parseVecU32

/-- One parsed feedback record (`parseFeedbacks`). -/
structure FeedbackRec where
  correct_position : Nat
  correct_color : Nat
  proof_hash : String
  deriving Repr, DecidableEq

/-- Collect a symbol-keyed field table from map entries
(`entry.key().sym().toString()`). -/
def fieldsOf (entries : List (ScVal × ScVal)) : Except String (List (String × ScVal)) :=
  entries.mapM (fun e => do
    let k ← getSym e.1
    pure (k, e.2))

/-- Duck-typed field access: a missing field makes the subsequent accessor
call throw in the source. -/
def getField (fields : List (String × ScVal)) (name : String) : Except String ScVal :=
  match fields.lookup name with
  | some v => .ok v
  | none => .error ("missing field " ++ name)

def parseFeedbackRec (v : ScVal) : Except String FeedbackRec := do
  match getMap v with
  | none => .error "not a map"
  | some es => do
    let fields ← fieldsOf es
    let cp ← getU32 (← getField fields "correct_position")
    let cc ← getU32 (← getField fields "correct_color")
    let ph ← getBytes (← getField fields "proof_hash")
    pure { correct_position := cp, correct_color := cc, proof_hash := hexEncode ph }

def parseFeedbacks (val : ScVal) : Except String (List FeedbackRec) :=
  match getVec val with
  | none => .ok []
  | some vs => vs.mapM parseFeedbackRec

/-- The parsed on-chain game state (`OnChainGameState`). -/
structure OnChainGameState where
  session_id : Nat
  codemaker : String
  codebreaker : String
  phase : Nat
  commitment : String
  guesses : List (List Nat)
  feedbacks : List FeedbackRec
  guess_count : Nat
  max_guesses : Nat
  winner : Option String
  current_guess : List Nat
  deriving Repr, DecidableEq

/-- `scValToGameState`: dynamic structural parsing of the returned map. -/
def scValToGameState (val : ScVal) : Except String OnChainGameState := do
  match getMap val with
  | none => .error "Expected map"
  | some entries => do
    let fields ← fieldsOf entries
    let sid ← getU32 (← getField fields "session_id")
    let cm ← getAddr (← getField fields "codemaker")
    let cb ← getAddr (← getField fields "codebreaker")
    let ph ← getU32 (← getField fields "phase")
    let commitB ← getBytes (← getField fields "commitment")
    let gs ← parseVecOfVecU32 (← getField fields "guesses")
    let fbs ← parseFeedbacks (← getField fields "feedbacks")
    let gc ← getU32 (← getField fields "guess_count")
    let mg ← getU32 (← getField fields "max_guesses")
    let wv ← getField fields "winner"
    let w ← match wv with
      | .void => pure (Option.none (α := String))
      | v => do
          let a ← getAddr v
          pure (some a)
    let cg ← parseVecU32 (← getField fields "current_guess")
    pure { session_id := sid, codemaker := cm, codebreaker := cb, phase := ph
           commitment := hexEncode commitB, guesses := gs, feedbacks := fbs
           guess_count := gc, max_guesses := mg, winner := w, current_guess := cg }

/-- A `simulateTransaction` response as `getGame` inspects it: either a
simulation error, or a success whose `result.retval` may be absent. -/
inductive SimResult where
  | simErr : String → SimResult
  | success : Option ScVal → SimResult

/-- `getGame`: returns `null` on a simulation error or a missing result;
parses the retval otherwise (a parse failure propagates as a thrown error). -/
def getGame (resp : SimResult) : Except String (Option OnChainGameState) :=
  match resp with
  | .simErr _ => .ok none
  | .success none => .ok none
  | .success (some v) => do
      let g ← scValToGameState v
      pure (some g)

/-- `getGameDirect`: the whole body runs inside `try`; the `catch` returns
`null`. The argument is the outcome of fetching the contract-data entries for
the session (an `error` models any throw while fetching/decoding). -/
def getGameDirect (fetched : Except String (List ScVal)) : Option OnChainGameState :=
  match (do
    let entries ← fetched
    match entries with
    | [] => pure (Option.none (α := OnChainGameState))
    | e :: _ => do
        let g ← scValToGameState e
        pure (some g) : Except String (Option OnChainGameState)) with
  | .ok r => r
  | .error _ => none

/-! ## Transaction building (`contracts.ts`): retry loop and manual bypass -/

/-- `hexToBytes` from `contracts.ts`. -/
def hexVal (c : Char) : Nat :=
  if '0' ≤ c ∧ c ≤ '9' then c.toNat - 48
  else if 'a' ≤ c ∧ c ≤ 'f' then c.toNat - 87
  else if 'A' ≤ c ∧ c ≤ 'F' then c.toNat - 55
  else 0

def hexToBytesAux : List Char → List Nat
  | c1 :: c2 :: rest => (16 * hexVal c1 + hexVal c2) :: hexToBytesAux rest
  | _ => []

def hexToBytes (s : String) : List Nat :=
  hexToBytesAux (if s.startsWith "0x" then (s.drop 2).toList else s.toList)

/-- Soroban contract-data durability (the only property the bypass inspects). -/
inductive Durability where
  | temporary
  | persistent
  deriving Repr, DecidableEq

/-- A ledger key of a simulation footprint, as far as the bypass inspects it:
contract-data keys carry a durability, all other key kinds are opaque. -/
inductive LedgerKey where
  | contractData : Durability → Nat → LedgerKey
  | other : Nat → LedgerKey
  deriving Repr, DecidableEq

structure Footprint where
  readOnly : List LedgerKey
  readWrite : List LedgerKey
  deriving Repr, DecidableEq

/-- The part of a successful simulation response the builders use. -/
structure SimData where
  footprint : Footprint
  deriving Repr, DecidableEq

/-- Outcome of one `simulateTransaction` call: an error (message and the
joined events string) or success. -/
inductive SimOutcome where
  | err : String → String → SimOutcome
  | ok : SimData → SimOutcome

/-- `errMsg.includes('Error(Contract')` (JS `String.prototype.includes`). -/
def isContractErr (msg : String) : Bool :=
  (List.range (msg.toList.length + 1)).any
    (fun i => "Error(Contract".toList.isPrefixOf (msg.toList.drop i))

/-- The error message thrown on a failed simulation. -/
def simFailMsg (method errMsg events : String) : String :=
  "Simulation failed for " ++ method ++ ": " ++ errMsg ++
    (if events ≠ "" then " | Events: " ++ events else "")

/-- A transaction assembled from a successful simulation. -/
structure AssembledTx where
  method : String
  args : List ScVal
  simData : SimData

/-- The manually constructed bypass transaction of `buildSubmitFeedback`. -/
structure ManualTx where
  method : String
  args : List ScVal
  readOnlyKeys : List LedgerKey
  readWriteKeys : List LedgerKey
  cpuInstructions : Nat
  readBytes : Nat
  writeBytes : Nat
  resourceFee : Nat
  fee : Nat
  authSourceAccount : Bool

/-- A built transaction: every builder except the feedback bypass produces
the `assembled` form. -/
inductive BuiltTx where
  | assembled : AssembledTx → BuiltTx
  | manual : ManualTx → BuiltTx

/-- How many simulation calls were made and how many settlement-interval
waits (`setTimeout` before a retry) were performed. -/
structure TxTrace where
  simCalls : Nat
  waits : Nat
  deriving Repr, DecidableEq

/-- The retry loop of `buildContractTx`, from attempt number `attempt` with
`retriesLeft = maxRetries - attempt` further retries allowed (the source's
loop guard `attempt < maxRetries` is exactly `retriesLeft > 0`): simulate;
on success assemble; on failure retry (after a wait) only while a retry is
left and the raw error message contains `Error(Contract`; otherwise throw. -/
def buildContractTxAux (sim : Nat → SimOutcome) (method : String)
    (args : List ScVal) : Nat → Nat → Except String AssembledTx × TxTrace
  | 0, attempt =>
    match sim attempt with
    | .ok d => (.ok ⟨method, args, d⟩, ⟨attempt + 1, attempt⟩)
    | .err msg events =>
      (.error (simFailMsg method msg events), ⟨attempt + 1, attempt⟩)
  | retries + 1, attempt =>
    match sim attempt with
    | .ok d => (.ok ⟨method, args, d⟩, ⟨attempt + 1, attempt⟩)
    | .err msg events =>
      if isContractErr msg then
        buildContractTxAux sim method args retries (attempt + 1)
      else
        (.error (simFailMsg method msg events), ⟨attempt + 1, attempt⟩)

/-- `buildContractTx` (the loop starts at attempt 0 with the full retry
budget; the default budget of the source is 1). -/
def buildContractTx (sim : Nat → SimOutcome) (method : String)
    (args : List ScVal) (maxRetries : Nat) : Except String AssembledTx × TxTrace :=
  buildContractTxAux sim method args maxRetries 0

/-- `buildNewGame`: default retry budget. -/
def buildNewGame (sim : Nat → SimOutcome) (sessionId : Nat)
    (codemaker codebreaker : String) : Except String BuiltTx × TxTrace :=
  let r := buildContractTx sim "new_game"
    [ScVal.u32 sessionId, ScVal.address codemaker, ScVal.address codebreaker] 1
  (r.1.map .assembled, r.2)

/-- `buildCommitCode`: default retry budget. -/
def buildCommitCode (sim : Nat → SimOutcome) (sessionId : Nat)
    (codemaker : String) (commitmentHex : String) : Except String BuiltTx × TxTrace :=
  let r := buildContractTx sim "commit_code"
    [ScVal.u32 sessionId, ScVal.address codemaker,
     ScVal.bytes (hexToBytes commitmentHex)] 1
  (r.1.map .assembled, r.2)

/-- `buildSubmitGuess`: default retry budget. -/
def buildSubmitGuess (sim : Nat → SimOutcome) (sessionId : Nat)
    (codebreaker : String) (guess : List Nat) : Except String BuiltTx × TxTrace :=
  let r := buildContractTx sim "submit_guess"
    [ScVal.u32 sessionId, ScVal.address codebreaker,
     ScVal.vec (guess.map ScVal.u32)] 1
  (r.1.map .assembled, r.2)

/-- Whether a footprint key is contract data of temporary durability (the
keys the bypass moves to read-write). -/
def isTempContractData : LedgerKey → Bool
  | .contractData .temporary _ => true
  | _ => false

/-- The bypass's key reclassification loop over the `get_game` read-only
footprint. -/
def splitKeys : List LedgerKey → List LedgerKey × List LedgerKey
  | [] => ([], [])
  | k :: rest =>
    let p := splitKeys rest
    if isTempContractData k then (p.1, k :: p.2) else (k :: p.1, p.2)

/-- Environment of `buildSubmitFeedback`: the per-attempt outcome of
simulating the `submit_feedback` transaction, and the outcome of the
read-only `get_game` simulation used by the bypass. -/
structure FeedbackEnv where
  feedbackSim : Nat → SimOutcome
  getGameSim : SimOutcome

/-- `buildSubmitFeedback`: try `buildContractTx` with zero retries; on a
contract-class failure, build the transaction manually from the `get_game`
footprint (temporary contract-data keys become read-write), with the fixed
resource budget (50M instructions, 20 KB read, 20 KB write, 5 XLM resource
fee, 10 XLM max fee) and a source-account authorization entry; any other
failure is rethrown. -/
def buildSubmitFeedback (env : FeedbackEnv) (sessionId : Nat)
    (codemaker : String) (correctPosition correctColor : Nat)
    (proofHashHex : String) : Except String BuiltTx × TxTrace :=
  let feedbackArgs :=
    [ScVal.u32 sessionId, ScVal.address codemaker, ScVal.u32 correctPosition,
     ScVal.u32 correctColor, ScVal.bytes (hexToBytes proofHashHex)]
  match buildContractTx env.feedbackSim "submit_feedback" feedbackArgs 0 with
  | (.ok tx, tr) => (.ok (.assembled tx), tr)
  | (.error simMsg, tr) =>
    if ¬ isContractErr simMsg then (.error simMsg, tr)
    else
      match env.getGameSim with
      | .err _ _ =>
          (.error "Bypass failed: get_game simulation also failed",
           ⟨tr.simCalls + 1, tr.waits⟩)
      | .ok d =>
          let p := splitKeys d.footprint.readOnly
          (.ok (.manual
            { method := "submit_feedback"
              args := feedbackArgs
              readOnlyKeys := p.1
              readWriteKeys := p.2 ++ d.footprint.readWrite
              cpuInstructions := 50000000
              readBytes := 20000
              writeBytes := 20000
              resourceFee := 5000000
              fee := 10000000
              authSourceAccount := true }),
           ⟨tr.simCalls + 1, tr.waits⟩)

/-- Whether a build result is the manual bypass transaction. -/
def isManualResult : Except String BuiltTx → Bool
  | .ok (.manual _) => true
  | _ => false

/-- Whether a build result is an assembled (simulation-backed) transaction. -/
def isAssembledResult : Except String BuiltTx → Bool
  | .ok (.assembled _) => true
  | _ => false

/-! ## Claim theorems -/

/-- C1: for every secret and guess of length 4 over the 6-symbol alphabet,
`computeFeedback` returns the result of the two-pass exact-then-color
algorithm (formalised as `specFeedback`); in particular it returns `(1,2)`,
`(2,2)` and `(1,0)` on the three documented duplicate-handling examples. -/
theorem claim_C1_feedback_two_pass (s g : List Int)
    (hs : s.length = 4) (hg : g.length = 4)
    (hsA : ∀ x ∈ s, x ∈ alphabetL) (hgA : ∀ x ∈ g, x ∈ alphabetL) :
    computeFeedback s g = specFeedback s g
    ∧ computeFeedback [0, 0, 1, 2] [0, 1, 0, 0] = ⟨1, 2⟩
    ∧ computeFeedback [1, 1, 2, 2] [1, 2, 1, 2] = ⟨2, 2⟩
    ∧ computeFeedback [0, 1, 2, 3] [0, 0, 0, 0] = ⟨1, 0⟩ :=
  ⟨computeFeedback_eq_specFeedback s g hs hg, by decide, by decide, by decide⟩

theorem claim_C1_feedback_two_pass_witness :
    computeFeedback [0, 0, 1, 2] [0, 1, 0, 0] = specFeedback [0, 0, 1, 2] [0, 1, 0, 0] :=
  (claim_C1_feedback_two_pass [0, 0, 1, 2] [0, 1, 0, 0]
    (by decide) (by decide) (by decide) (by decide)).1

/-- C2: for codes of length 4 over the alphabet, both feedback components
are (non-negative) integers at most 4 and their sum is at most 4. -/
theorem claim_C2_feedback_bounds (s g : List Int)
    (hs : s.length = 4) (hg : g.length = 4)
    (hsA : ∀ x ∈ s, x ∈ alphabetL) (hgA : ∀ x ∈ g, x ∈ alphabetL) :
    (computeFeedback s g).correctPosition ≤ 4
    ∧ (computeFeedback s g).correctColor ≤ 4
    ∧ (computeFeedback s g).correctPosition + (computeFeedback s g).correctColor ≤ 4 := by
  have h1 : (computeFeedback s g).correctPosition = exactMatches s g := rfl
  have h2 : (computeFeedback s g).correctColor = colorMatches s g := rfl
  have h3 := feedback_sum_le_four s g
  refine ⟨?_, ?_, ?_⟩ <;> omega

theorem claim_C2_feedback_bounds_witness :
    (computeFeedback [5, 5, 0, 1] [5, 0, 5, 5]).correctPosition
      + (computeFeedback [5, 5, 0, 1] [5, 0, 5, 5]).correctColor ≤ 4 :=
  (claim_C2_feedback_bounds [5, 5, 0, 1] [5, 0, 5, 5]
    (by decide) (by decide) (by decide) (by decide)).2.2

/-- C8: relabeling the colors of both the secret and the guess with a
permutation of the 6-symbol alphabet leaves the feedback unchanged. -/
theorem claim_C8_relabel_invariance (p : Int → Int) (s g : List Int)
    (hperm : (alphabetL.map p).Perm alphabetL)
    (hs : s.length = 4) (hg : g.length = 4)
    (hsA : ∀ x ∈ s, x ∈ alphabetL) (hgA : ∀ x ∈ g, x ∈ alphabetL) :
    computeFeedback (s.map p) (g.map p) = computeFeedback s g :=
  computeFeedback_relabel p s g hperm hs hg hsA hgA

theorem claim_C8_relabel_invariance_witness :
    computeFeedback ([0, 1, 2, 2].map (fun x => 5 - x)) ([2, 1, 0, 3].map (fun x => 5 - x))
      = computeFeedback [0, 1, 2, 2] [2, 1, 0, 3] :=
  claim_C8_relabel_invariance (fun x => 5 - x) [0, 1, 2, 2] [2, 1, 0, 3]
    (by decide) (by decide) (by decide) (by decide) (by decide)

/-- C9: `computeFeedback` is total on arbitrary length-4 integer lists;
an out-of-alphabet value equal at the same position still counts toward the
exact matches, while the color loop scans only values 0..5, so out-of-alphabet
symbols contribute nothing to the color matches — at `[7,7,0,1]` vs
`[0,7,7,2]` the per-color minimum for 7 would be 1, yet the result is
`(1, 1)`. -/
theorem claim_C9_out_of_alphabet (s g : List Int)
    (hs : s.length = 4) (hg : g.length = 4) :
    (computeFeedback s g).correctPosition
      = ((List.range 4).filter (fun i => decide (s.getD i 0 = g.getD i 0))).length
    ∧ (computeFeedback s g).correctColor
      = (alphabetL.map (fun c => minCount s g c)).sum
    ∧ computeFeedback [7, 7, 0, 1] [0, 7, 7, 2] = ⟨1, 1⟩
    ∧ minCount [7, 7, 0, 1] [0, 7, 7, 2] 7 = 1 :=
  ⟨rfl, rfl, by decide, by decide⟩

theorem claim_C9_out_of_alphabet_witness :
    (computeFeedback [7, 7, 0, 1] [0, 7, 7, 2]).correctColor
      = (alphabetL.map (fun c => minCount [7, 7, 0, 1] [0, 7, 7, 2] c)).sum :=
  (claim_C9_out_of_alphabet [7, 7, 0, 1] [0, 7, 7, 2] (by decide) (by decide)).2.1

/-- C6: after a guess receives feedback in the demo game, the winner is the
codebreaker exactly when that feedback has 4 exact matches; otherwise the
codemaker wins exactly when the recorded guesses reach `MAX_GUESSES = 12`;
in every other case no winner is set and the phase stays `playing`; the
checks happen in that order and the entry is appended to the history. -/
theorem claim_C6_demo_win_conditions (s : DemoState) (guess : List Int)
    (hphase : s.phase = .playing) (hwin : s.winner = none) :
    ((handleGuess s guess).winner = some .codebreaker
      ↔ (computeFeedback s.secretCode guess).correctPosition = 4)
    ∧ ((handleGuess s guess).winner = some .codemaker
      ↔ ((computeFeedback s.secretCode guess).correctPosition ≠ 4
          ∧ 12 ≤ s.guessHistory.length + 1))
    ∧ ((handleGuess s guess).phase = .finished
      ↔ ((computeFeedback s.secretCode guess).correctPosition = 4
          ∨ 12 ≤ s.guessHistory.length + 1))
    ∧ (((computeFeedback s.secretCode guess).correctPosition ≠ 4
          ∧ s.guessHistory.length + 1 < 12)
        → ((handleGuess s guess).winner = none
            ∧ (handleGuess s guess).phase = .playing))
    ∧ (handleGuess s guess).guessHistory
        = s.guessHistory ++ [⟨guess, computeFeedback s.secretCode guess⟩] := by
  by_cases h4 : (computeFeedback s.secretCode guess).correctPosition = 4
  · simp [handleGuess, CODE_LENGTH, MAX_GUESSES, h4, hphase, hwin]
  · by_cases h12 : 12 ≤ s.guessHistory.length + 1
    · simp [handleGuess, CODE_LENGTH, MAX_GUESSES, h4, h12, hphase, hwin]
    · simp [handleGuess, CODE_LENGTH, MAX_GUESSES, h4, h12, hphase, hwin]

theorem claim_C6_demo_win_conditions_witness :
    (handleGuess ⟨.playing, [0, 1, 2, 3], [], false, none, -1⟩ [0, 1, 2, 3]).winner
        = some .codebreaker
    ↔ (computeFeedback [0, 1, 2, 3] [0, 1, 2, 3]).correctPosition = 4 :=
  (claim_C6_demo_win_conditions ⟨.playing, [0, 1, 2, 3], [], false, none, -1⟩
    [0, 1, 2, 3] rfl rfl).1

theorem getD_range_map (f : Nat → Nat) (n j : Nat) (h : j < n) :
    ((List.range n).map f).getD j 0 = f j := by
  rw [List.getD_eq_getElem _ _ (by simpa using h)]
  simp

/-- C3: the commitment digest input is the secret's four symbol values, one
per 32-byte block in the block's last byte, all other 124 bytes a fixed zero
padding; `computeCommitment` is the (deterministic) hex-encoded sha256 of
that input and always has the fixed width of 64 hex characters. -/
theorem claim_C3_commitment_shape (code : List Nat)
    (hlen : code.length = 4) (hval : ∀ x ∈ code, x < 6) :
    (commitmentPreimage code).length = 128
    ∧ (∀ i, i < 4 → (commitmentPreimage code).getD (i * 32 + 31) 0 = code.getD i 0)
    ∧ (∀ j, j < 128 → j % 32 ≠ 31 → (commitmentPreimage code).getD j 0 = 0)
    ∧ computeCommitment code = hexEncode (sha256 (commitmentPreimage code))
    ∧ (computeCommitment code).length = 64 := by
  refine ⟨?_, ?_, ?_, rfl, ?_⟩
  · simp [commitmentPreimage, hlen]
  · intro i hi
    have hj : i * 32 + 31 < code.length * 32 := by omega
    rw [commitmentPreimage, getD_range_map _ _ _ hj]
    have h1 : (i * 32 + 31) % 32 = 31 := by omega
    have h2 : (i * 32 + 31) / 32 = i := by omega
    rw [if_pos h1, h2]
    have hmem : code.getD i 0 ∈ code := getD_mem_of_lt code 0 i (by omega)
    exact Nat.mod_eq_of_lt (lt_trans (hval _ hmem) (by omega))
  · intro j hj hj31
    have hj' : j < code.length * 32 := by omega
    rw [commitmentPreimage, getD_range_map _ _ _ hj']
    exact if_neg hj31
  · show (hexEncode (sha256 (commitmentPreimage code))).length = 64
    rw [hexEncode_length, sha256_length]

theorem claim_C3_commitment_shape_witness :
    (computeCommitment [0, 1, 2, 3]).length = 64 :=
  (claim_C3_commitment_shape [0, 1, 2, 3] (by decide) (by decide)).2.2.2.2

/-- C5 evaluation (the code contradicts the claim): when proof generation
fails, the submitted `proofHash` is the bare hex sha256 digest of the
disclosed secret, guess and feedback bytes; it carries no flag and is
exactly the value the genuine path would store for proof bytes with that
digest, so the degraded path is indistinguishable in stored data. -/
theorem claim_C5_fallback_is_bare_digest :
    submittedProofHash (.failed "prover unavailable") [0, 1, 2, 3] [0, 0, 0, 0]
        (computeFeedback [0, 1, 2, 3] [0, 0, 0, 0])
      = hexEncode (sha256 [0, 1, 2, 3, 0, 0, 0, 0, 1, 0])
    ∧ genuineProofHash [0, 1, 2, 3, 0, 0, 0, 0, 1, 0]
      = submittedProofHash (.failed "prover unavailable") [0, 1, 2, 3] [0, 0, 0, 0]
          (computeFeedback [0, 1, 2, 3] [0, 0, 0, 0])
    ∧ (submittedProofHash (.failed "prover unavailable") [0, 1, 2, 3] [0, 0, 0, 0]
        (computeFeedback [0, 1, 2, 3] [0, 0, 0, 0])).length = 64
    ∧ (∀ pb : List Nat, (genuineProofHash pb).length = 64) := by
  refine ⟨rfl, rfl, ?_, ?_⟩
  · show (hexEncode (sha256 _)).length = 64
    rw [hexEncode_length, sha256_length]
  · intro pb
    show (hexEncode (sha256 pb)).length = 64
    rw [hexEncode_length, sha256_length]

/-- C10: `getGame` returns `null` (without throwing) on every simulation
error and on every response without a result; `getGameDirect` returns `null`
when fetching throws, when the ledger entry is absent, and when parsing the
entry throws. -/
theorem claim_C10_null_returns :
    (∀ msg, getGame (.simErr msg) = .ok none)
    ∧ getGame (.success none) = .ok none
    ∧ (∀ e, getGameDirect (.error e) = none)
    ∧ getGameDirect (.ok []) = none
    ∧ (∀ v rest msg, scValToGameState v = .error msg →
        getGameDirect (.ok (v :: rest)) = none) := by
  refine ⟨fun msg => rfl, rfl, fun e => rfl, rfl, ?_⟩
  intro v rest msg h
  show (match some <$> scValToGameState v with
    | Except.ok r => r
    | Except.error _ => none) = none
  rw [h]
  rfl

theorem claim_C10_null_returns_witness :
    getGameDirect (.ok [ScVal.void]) = none :=
  claim_C10_null_returns.2.2.2.2 ScVal.void [] "Expected map" rfl

/-! ### Transaction-builder lemmas -/

theorem splitKeys_eq_filters (ks : List LedgerKey) :
    splitKeys ks
      = (ks.filter (fun k => !isTempContractData k), ks.filter isTempContractData) := by
  induction ks with
  | nil => rfl
  | cons k rest ih =>
    cases h : isTempContractData k <;> simp [splitKeys, List.filter_cons, h, ih]

theorem map_assembled_not_manual (x : Except String AssembledTx) :
    isManualResult (x.map BuiltTx.assembled) = false := by
  cases x <;> rfl

theorem buildContractTxAux_simCalls_le (sim : Nat → SimOutcome) (method : String)
    (args : List ScVal) :
    ∀ retriesLeft attempt,
      (buildContractTxAux sim method args retriesLeft attempt).2.simCalls
        ≤ attempt + retriesLeft + 1 := by
  intro retriesLeft
  induction retriesLeft with
  | zero =>
    intro attempt
    cases h : sim attempt <;> simp [buildContractTxAux, h]
  | succ r ih =>
    intro attempt
    cases h : sim attempt with
    | ok d => simp [buildContractTxAux, h]
    | err m ev =>
      cases hb : isContractErr m with
      | true =>
        have := ih (attempt + 1)
        simp only [buildContractTxAux, h, hb, if_true]
        omega
      | false => simp [buildContractTxAux, h, hb]

/-- C4: the manual-footprint bypass path exists only in `buildSubmitFeedback`
and activates only when the `submit_feedback` simulation fails with a
contract-class error; the bypass takes its footprint from the read-only
`get_game` simulation, moves the temporary-durability contract-data keys into
the read-write set, attaches the fixed resource budget and a source-account
authorization entry; a non-contract-class failure is rethrown, and the other
three builders never produce a manual transaction. -/
theorem claim_C4_bypass_only_for_feedback
    (env : FeedbackEnv) (sid cp cc : Nat) (cm ph : String) :
    (∀ d, env.feedbackSim 0 = .ok d →
      buildSubmitFeedback env sid cm cp cc ph
        = (.ok (.assembled ⟨"submit_feedback",
            [ScVal.u32 sid, ScVal.address cm, ScVal.u32 cp, ScVal.u32 cc,
             ScVal.bytes (hexToBytes ph)], d⟩), ⟨1, 0⟩))
    ∧ (∀ m ev, env.feedbackSim 0 = .err m ev →
        isContractErr (simFailMsg "submit_feedback" m ev) = false →
        buildSubmitFeedback env sid cm cp cc ph
          = (.error (simFailMsg "submit_feedback" m ev), ⟨1, 0⟩))
    ∧ (∀ m ev m2 ev2, env.feedbackSim 0 = .err m ev →
        isContractErr (simFailMsg "submit_feedback" m ev) = true →
        env.getGameSim = .err m2 ev2 →
        buildSubmitFeedback env sid cm cp cc ph
          = (.error "Bypass failed: get_game simulation also failed", ⟨2, 0⟩))
    ∧ (∀ m ev d, env.feedbackSim 0 = .err m ev →
        isContractErr (simFailMsg "submit_feedback" m ev) = true →
        env.getGameSim = .ok d →
        buildSubmitFeedback env sid cm cp cc ph
          = (.ok (.manual
              { method := "submit_feedback"
                args := [ScVal.u32 sid, ScVal.address cm, ScVal.u32 cp,
                         ScVal.u32 cc, ScVal.bytes (hexToBytes ph)]
                readOnlyKeys :=
                  d.footprint.readOnly.filter (fun k => !isTempContractData k)
                readWriteKeys :=
                  d.footprint.readOnly.filter isTempContractData
                    ++ d.footprint.readWrite
                cpuInstructions := 50000000
                readBytes := 20000
                writeBytes := 20000
                resourceFee := 5000000
                fee := 10000000
                authSourceAccount := true }), ⟨2, 0⟩))
    ∧ (∀ sim sid2 a b r tr, buildNewGame sim sid2 a b = (r, tr) →
        isManualResult r = false)
    ∧ (∀ sim sid2 a chex r tr, buildCommitCode sim sid2 a chex = (r, tr) →
        isManualResult r = false)
    ∧ (∀ sim sid2 a gl r tr, buildSubmitGuess sim sid2 a gl = (r, tr) →
        isManualResult r = false) := by
  refine ⟨?_, ?_, ?_, ?_, ?_, ?_, ?_⟩
  · intro d hd
    simp [buildSubmitFeedback, buildContractTx, buildContractTxAux, hd]
  · intro m ev hm hnc
    simp [buildSubmitFeedback, buildContractTx, buildContractTxAux, hm, hnc]
  · intro m ev m2 ev2 hm hic hg
    simp [buildSubmitFeedback, buildContractTx, buildContractTxAux, hm, hic, hg]
  · intro m ev d hm hic hg
    simp [buildSubmitFeedback, buildContractTx, buildContractTxAux, hm, hic, hg,
      splitKeys_eq_filters]
  · intro sim sid2 a b r tr h
    have hr : r = (buildContractTx sim "new_game"
        [ScVal.u32 sid2, ScVal.address a, ScVal.address b] 1).1.map .assembled := by
      have := congrArg Prod.fst h
      simpa [buildNewGame] using this.symm
    rw [hr]
    exact map_assembled_not_manual _
  · intro sim sid2 a chex r tr h
    have hr : r = (buildContractTx sim "commit_code"
        [ScVal.u32 sid2, ScVal.address a, ScVal.bytes (hexToBytes chex)] 1).1.map
          .assembled := by
      have := congrArg Prod.fst h
      simpa [buildCommitCode] using this.symm
    rw [hr]
    exact map_assembled_not_manual _
  · intro sim sid2 a gl r tr h
    have hr : r = (buildContractTx sim "submit_guess"
        [ScVal.u32 sid2, ScVal.address a, ScVal.vec (gl.map ScVal.u32)] 1).1.map
          .assembled := by
      have := congrArg Prod.fst h
      simpa [buildSubmitGuess] using this.symm
    rw [hr]
    exact map_assembled_not_manual _

theorem claim_C4_bypass_only_for_feedback_witness :
    buildSubmitFeedback
        ⟨fun _ => .ok ⟨⟨[], []⟩⟩, .ok ⟨⟨[], []⟩⟩⟩ 1 "GCODEMAKER" 2 1 "00ff"
      = (.ok (.assembled ⟨"submit_feedback",
          [ScVal.u32 1, ScVal.address "GCODEMAKER", ScVal.u32 2, ScVal.u32 1,
           ScVal.bytes (hexToBytes "00ff")], ⟨⟨[], []⟩⟩⟩), ⟨1, 0⟩) :=
  (claim_C4_bypass_only_for_feedback
    ⟨fun _ => .ok ⟨⟨[], []⟩⟩, .ok ⟨⟨[], []⟩⟩⟩ 1 2 1 "GCODEMAKER" "00ff").1 ⟨⟨[], []⟩⟩ rfl

/-- C7 counterexample: on a contract-class simulation failure of
`submit_feedback`, the builder escalates to the manual bypass with zero
settlement-interval waits — only one `submit_feedback` simulation call and
one `get_game` call happen, with no retry before escalation, contradicting
the claim that every operation retries after a wait before escalating. -/
theorem claim_C7_counterexample :
    isManualResult (buildSubmitFeedback
        ⟨fun _ => .err "HostError: Error(Contract, #13)" "",
         .ok ⟨⟨[LedgerKey.contractData .temporary 0], []⟩⟩⟩
        1 "GCODEMAKER" 0 1 "00").1 = true
    ∧ (buildSubmitFeedback
        ⟨fun _ => .err "HostError: Error(Contract, #13)" "",
         .ok ⟨⟨[LedgerKey.contractData .temporary 0], []⟩⟩⟩
        1 "GCODEMAKER" 0 1 "00").2 = ⟨2, 0⟩
    ∧ (buildContractTx (fun _ => .err "HostError: Error(Contract, #13)" "")
        "submit_feedback" [] 0).2 = ⟨1, 0⟩ :=
  ⟨rfl, rfl, rfl⟩

/-- C7 (amended): non-contract-class simulation failures are never retried
and are reported immediately; with the default retry budget 1 (used by
`new_game`, `commit_code` and `submit_guess`) a contract-class failure is
retried exactly once after one settlement-interval wait; the number of
simulation calls is bounded by the budget plus one; but `buildSubmitFeedback`
invokes the builder with budget 0, so a contract-class failure escalates to
the manual bypass immediately, with no wait and no retry. -/
theorem claim_C7_amended_retry_discipline :
    (∀ (sim : Nat → SimOutcome) method args r m ev, sim 0 = .err m ev →
      isContractErr m = false →
      buildContractTx sim method args r = (.error (simFailMsg method m ev), ⟨1, 0⟩))
    ∧ (∀ (sim : Nat → SimOutcome) method args m ev, sim 0 = .err m ev →
        isContractErr m = true →
        (∀ d, sim 1 = .ok d →
          buildContractTx sim method args 1 = (.ok ⟨method, args, d⟩, ⟨2, 1⟩))
        ∧ (∀ m2 ev2, sim 1 = .err m2 ev2 →
          buildContractTx sim method args 1
            = (.error (simFailMsg method m2 ev2), ⟨2, 1⟩)))
    ∧ (∀ (sim : Nat → SimOutcome) method args r,
        (buildContractTx sim method args r).2.simCalls ≤ r + 1)
    ∧ (∀ env sid cm cp cc ph m ev d, env.feedbackSim 0 = .err m ev →
        isContractErr (simFailMsg "submit_feedback" m ev) = true →
        env.getGameSim = .ok d →
        isManualResult (buildSubmitFeedback env sid cm cp cc ph).1 = true
        ∧ (buildSubmitFeedback env sid cm cp cc ph).2 = ⟨2, 0⟩) := by
  refine ⟨?_, ?_, ?_, ?_⟩
  · intro sim method args r m ev hm hnc
    cases r <;> simp [buildContractTx, buildContractTxAux, hm, hnc]
  · intro sim method args m ev hm hic
    constructor
    · intro d hd
      simp [buildContractTx, buildContractTxAux, hm, hic, hd]
    · intro m2 ev2 hd
      cases hb : isContractErr m2 <;>
        simp [buildContractTx, buildContractTxAux, hm, hic, hd, hb]
  · intro sim method args r
    have := buildContractTxAux_simCalls_le sim method args r 0
    simpa [buildContractTx] using this
  · intro env sid cm cp cc ph m ev d hm hic hg
    constructor
    · simp [buildSubmitFeedback, buildContractTx, buildContractTxAux, hm, hic, hg,
        isManualResult]
    · simp [buildSubmitFeedback, buildContractTx, buildContractTxAux, hm, hic, hg]

theorem claim_C7_amended_retry_discipline_witness :
    buildContractTx (fun _ => .err "boom" "") "new_game" [] 1
      = (.error (simFailMsg "new_game" "boom" ""), ⟨1, 0⟩) :=
  claim_C7_amended_retry_discipline.1 (fun _ => .err "boom" "") "new_game" [] 1
    "boom" "" rfl rfl

end ZKMind
